import Mathlib

/-! Periodic-task builtins of lure-updater (`internal/builtins/run_every.go`).

A shallow embedding of the three Starlark builtins `run_every`, `sleep` and
`handle.stop()` together with the package-level registry they share
(`tickerMtx`, `tickerCount`, `tickers`).

Modelling decisions:

* Go `int` is the 64-bit two's-complement integer: `tickerCount++` is
  `wrap64 (tickerCount + 1)`.
* `*time.Ticker` values are addresses into `State.heap`, the list of every
  ticker object allocated so far; the nil pointer is the absence of an
  address (a map lookup of a missing key yields nil in Go).
* `time.NewTicker d` panics when `d ≤ 0`; a method call through a nil
  `*time.Ticker` panics with a nil dereference. A panic leaves `tickerMtx`
  locked, because the source unlocks without `defer`.
* The critical sections are serialised by `tickerMtx`, so a concurrent
  execution is the sequence of the operations in the order in which they take
  the mutex; `exec` runs such a sequence.
* `time.ParseDuration` and `starlark.UnpackArgs` are external: every
  operation takes the parser as a parameter and the result of unpacking as its
  argument. `ParseDuration` below is a model of the Go standard library
  function, used to evaluate the operations on concrete duration strings.
* `starlark.Call` is external: the goroutine of a timer takes the interpreter
  as a parameter.
* The lists of the model are unbounded, the memory of a process is not: a
  timer keeps its goroutine and its ticker for as long as the process runs, so
  the states the program reaches are those whose goroutines fit in memory
  (`fitsInMemory`).
-/

namespace Builtins

/-! ## Data model -/

/-- Go `int` on a 64-bit platform: reduce an integer into `[-2^63, 2^63)`. -/
def wrap64 (x : Int) : Int :=
  (x + 9223372036854775808) % 18446744073709551616 - 9223372036854775808

/-- A `*starlark.Function`: only its name and position are read by this file. -/
structure Function where
  name : String
  pos : String
deriving DecidableEq, Repr

/-- A `time.Ticker` object: its period and whether `Stop` has been called. -/
structure Ticker where
  d : Int
  stopped : Bool
deriving DecidableEq, Repr

/-- Severity of a log record (`log.Debug`, `log.Warn`). -/
inductive Level where
  | debug
  | warn
deriving DecidableEq, Repr

/-- The value of one field of a log record. -/
inductive Field where
  | int (i : Int)
  | str (s : String)
deriving DecidableEq, Repr

/-- One record sent to the logger (the source position field is left out). -/
structure LogEntry where
  level : Level
  msg : String
  fields : List (String × Field)
deriving DecidableEq, Repr

/-- A goroutine started by `run_every`: it ranges over the channel of the
ticker at address `ticker` and calls `fn`. -/
structure Task where
  ticker : Nat
  fn : Function
deriving DecidableEq, Repr

/-- The package-level variables and the effects observable from outside. -/
structure State where
  /-- whether `tickerMtx` is held -/
  locked : Bool
  /-- the counter `tickerCount` -/
  tickerCount : Int
  /-- the map `tickers`, as an association list with unique keys -/
  tickers : List (Int × Nat)
  /-- every `time.Ticker` allocated so far; an address is an index -/
  heap : List Ticker
  /-- goroutines started so far -/
  tasks : List Task
  /-- durations passed to `time.Sleep`, oldest first -/
  slept : List Int
  /-- records sent to the logger, oldest first -/
  log : List LogEntry
deriving DecidableEq, Repr

/-- The state at program start: `tickerCount = 0`, `tickers` empty. -/
def initial : State :=
  { locked := false, tickerCount := 0, tickers := [], heap := [], tasks := [],
    slept := [], log := [] }

/-- A Starlark value returned by one of the builtins. `handle h` is the struct
built by `newTickerHandle h`, whose only field `stop` is `stopTicker h`. -/
inductive Value where
  | none
  | handle (h : Int)
deriving DecidableEq, Repr

/-- How a call of a builtin ends. -/
inductive Outcome where
  /-- `return v, nil` -/
  | ret (v : Value)
  /-- `return nil, err` -/
  | err (e : String)
  /-- a Go run-time panic -/
  | panic (msg : String)
  /-- blocked for ever in `tickerMtx.Lock()` -/
  | blocked
deriving DecidableEq, Repr

/-- Equality of Go `(value, error)` results is decidable. -/
instance instDecEqExcept {ε α : Type} [DecidableEq ε] [DecidableEq α] : DecidableEq (Except ε α)
  | .ok a, .ok b => if h : a = b then isTrue (by rw [h]) else isFalse (by intro h2; cases h2; exact h rfl)
  | .error a, .error b => if h : a = b then isTrue (by rw [h]) else isFalse (by intro h2; cases h2; exact h rfl)
  | .ok _, .error _ => isFalse (by intro h; cases h)
  | .error _, .ok _ => isFalse (by intro h; cases h)

/-! ## The map `tickers` -/

/-- Go `m[k]` read: the value stored under `k`, or nil (`none`). -/
def lookup (k : Int) : List (Int × Nat) → Option Nat
  | [] => none
  | (k', v) :: rest => if k' = k then some v else lookup k rest

/-- Go `delete(m, k)`. -/
def erase (k : Int) (m : List (Int × Nat)) : List (Int × Nat) :=
  m.filter (fun e => decide (e.1 ≠ k))

/-- Go `m[k] = v`: an existing entry for `k` is overwritten. -/
def insert (k : Int) (v : Nat) (m : List (Int × Nat)) : List (Int × Nat) :=
  (k, v) :: erase k m

/-- The keys of the map. -/
def keys (m : List (Int × Nat)) : List Int :=
  m.map Prod.fst

/-! ## `time` package -/

/-- Go `time.NewTicker d`: panics when `d ≤ 0`, otherwise allocates a running
ticker and returns its address. -/
def NewTicker (d : Int) (st : State) : Except String (Nat × State) :=
  if d ≤ 0 then
    .error "non-positive interval for NewTicker"
  else
    .ok (st.heap.length, { st with heap := st.heap ++ [{ d := d, stopped := false }] })

/-- Go `(*time.Ticker).Stop` on a non-nil ticker: turns the ticker off. -/
def Ticker.Stop (t : Nat) (st : State) : State :=
  { st with heap := st.heap.modify (fun tk => { tk with stopped := true }) t }

/-- Go `time.Sleep d`: recorded as a request; a non-positive `d` returns at once. -/
def Sleep (d : Int) (st : State) : State :=
  { st with slept := st.slept ++ [d] }

/-- How long a `time.Sleep d` suspends the caller. -/
def blockedFor (d : Int) : Int :=
  if d ≤ 0 then 0 else d

/-- Whether the ticker at address `t` exists and has not been stopped. -/
def ticking (st : State) (t : Nat) : Bool :=
  match st.heap[t]? with
  | some tk => !tk.stopped
  | none => false

/-- Whether the ticker at address `t` exists and has been stopped. -/
def halted (st : State) (t : Nat) : Bool :=
  match st.heap[t]? with
  | some tk => tk.stopped
  | none => false

/-- Append a record to the log. -/
def logSend (lvl : Level) (msg : String) (fields : List (String × Field)) (st : State) :
    State :=
  { st with log := st.log ++ [{ level := lvl, msg := msg, fields := fields }] }

/-! ## `time.ParseDuration`

A model of the Go standard library function, on the characters of the string
(Go scans bytes; the delimiters it looks for are ASCII, so on valid UTF-8 the
two scans agree). Error values carry the kind of failure only, not the quoted
input. The one floating-point expression of the function,
`uint64(float64(f) * (float64(unit) / scale))`, is the parameter `frac`,
applied to `f`, `unit` and the number of digits `k` with `scale = 10^k`;
`fracFloat64` computes it with the roundings of `float64`. -/

/-- Go `'0' <= c && c <= '9'`. -/
def isDigit (c : Char) : Bool :=
  decide (48 ≤ c.toNat) && decide (c.toNat ≤ 57)

/-- Go `unitMap`. The two spellings of the micro sign are U+00B5 and U+03BC. -/
def unitMap (u : List Char) : Option Nat :=
  if u = ['n', 's'] then some 1
  else if u = ['u', 's'] then some 1000
  else if u = [Char.ofNat 181, 's'] then some 1000
  else if u = [Char.ofNat 956, 's'] then some 1000
  else if u = ['m', 's'] then some 1000000
  else if u = ['s'] then some 1000000000
  else if u = ['m'] then some 60000000000
  else if u = ['h'] then some 3600000000000
  else none

/-- Go `leadingInt`: the leading digits as a number and the rest; `none` on
overflow. `x` is the value accumulated so far. -/
def leadingInt : List Char → Nat → Option (Nat × List Char)
  | [], x => some (x, [])
  | c :: rest, x =>
    if !isDigit c then some (x, c :: rest)
    else if x > 9223372036854775808 / 10 then none
    else
      let y := x * 10 + (c.toNat - 48)
      if y > 9223372036854775808 then none else leadingInt rest y

/-- Go `leadingFraction`: the leading digits as a number, how many of them were
accumulated (`scale = 10^k`) and the rest; digits after an overflow are
skipped. -/
def leadingFraction : List Char → Nat → Nat → Bool → Nat × Nat × List Char
  | [], x, k, _ => (x, k, [])
  | c :: rest, x, k, overflow =>
    if !isDigit c then (x, k, c :: rest)
    else if overflow then leadingFraction rest x k true
    else if x > (9223372036854775808 - 1) / 10 then leadingFraction rest x k true
    else
      let y := x * 10 + (c.toNat - 48)
      if y > 9223372036854775808 then leadingFraction rest x k true
      else leadingFraction rest y (k + 1) false

/-- Whether a character ends a unit name: `c == '.' || '0' <= c && c <= '9'`. -/
def endsUnit (c : Char) : Bool :=
  decide (c = '.') || isDigit c

/-- The step `Consume (\.[0-9]*)?` of `ParseDuration`: the fraction digits as a
number `f`, their count `k`, whether any digit was consumed, and the rest. -/
def fractionPart (s1 : List Char) : Nat × Nat × Bool × List Char :=
  match s1 with
  | [] => (0, 0, false, s1)
  | c1 :: s1' =>
    if c1 = '.' then
      let r := leadingFraction s1' 0 0 false
      (r.1, r.2.1, decide (s1'.length ≠ r.2.2.length), r.2.2)
    else (0, 0, false, s1)

/-- One iteration of the loop `for s != ""` of `ParseDuration` on the non-empty
rest `c :: rest`, with `d` the sum so far in `uint64`: the rest after the
number and its unit, and the new sum. -/
def parseSegment (frac : Nat → Nat → Nat → Nat) (c : Char) (rest : List Char) (d : Nat) :
    Except String (List Char × Nat) :=
  if !endsUnit c then .error "time: invalid duration" else
  match leadingInt (c :: rest) 0 with
  | none => .error "time: invalid duration"
  | some (v, s1) =>
    let pre := decide ((c :: rest).length ≠ s1.length)
    let fr := fractionPart s1
    let f := fr.1
    let k := fr.2.1
    let post := fr.2.2.1
    let s2 := fr.2.2.2
    if !pre && !post then .error "time: invalid duration" else
    let u := s2.takeWhile (fun x => !endsUnit x)
    let s3 := s2.dropWhile (fun x => !endsUnit x)
    if u = [] then .error "time: missing unit in duration" else
    match unitMap u with
    | none => .error "time: unknown unit in duration"
    | some unit =>
      if v > 9223372036854775808 / unit then .error "time: invalid duration" else
      let v1 := v * unit
      let v2 := if f > 0 then (v1 + frac f unit k) % 18446744073709551616 else v1
      if f > 0 ∧ v2 > 9223372036854775808 then .error "time: invalid duration" else
      let d1 := (d + v2) % 18446744073709551616
      if d1 > 9223372036854775808 then .error "time: invalid duration" else
      .ok (s3, d1)

/-- The loop `for s != ""` of `ParseDuration`. Every iteration consumes a
character (`parseSegment_length`), so `fuel = s.length` is enough
(`parseLoop_fuel`). -/
def parseLoop (frac : Nat → Nat → Nat → Nat) : Nat → List Char → Nat → Except String Nat
  | _, [], d => .ok d
  | 0, _ :: _, _ => .error "time: invalid duration"
  | fuel + 1, c :: rest, d =>
    match parseSegment frac c rest d with
    | .error e => .error e
    | .ok (s3, d1) => parseLoop frac fuel s3 d1

/-- Go `time.ParseDuration`, in nanoseconds. -/
def ParseDuration (frac : Nat → Nat → Nat → Nat) (s : String) : Except String Int :=
  let cs := s.toList
  let sg : Bool × List Char :=
    match cs with
    | '-' :: r => (true, r)
    | '+' :: r => (false, r)
    | _ => (false, cs)
  if sg.2 = ['0'] then .ok 0
  else if sg.2 = [] then .error "time: invalid duration"
  else
    match parseLoop frac sg.2.length sg.2 0 with
    | .error e => .error e
    | .ok d =>
      if sg.1 then .ok (wrap64 (-(wrap64 d)))
      else if d > 9223372036854775808 - 1 then .error "time: invalid duration"
      else .ok d

/-- The number of binary digits of `n`, counted on top of `acc`; `fuel = n` is
always enough (`bitLenAux_fuel`). -/
def bitLenAux : Nat → Nat → Nat → Nat
  | 0, _, acc => acc
  | fuel + 1, n, acc => if n = 0 then acc else bitLenAux fuel (n / 2) (acc + 1)

/-- The number of binary digits of `n`. -/
def bitLen (n : Nat) : Nat :=
  bitLenAux n n 0

/-- The integer nearest to `a / b`, a tie going to the even one. -/
def roundHalfEven (a b : Nat) : Nat :=
  let q := a / b
  let r := a % b
  if 2 * r < b then q
  else if b < 2 * r then q + 1
  else if q % 2 = 0 then q else q + 1

/-- The `float64` nearest to the positive rational `a / b` (IEEE 754 binary64,
round to nearest, ties to even; normal range), as a fraction: a 53-bit
significand `m` with `2^52 ≤ a / (b * 2^s) < 2^53` rounded, times `2^s`. -/
def toFloat64 (a b : Nat) : Nat × Nat :=
  let g : Int := (bitLen a : Int) - (bitLen b : Int)
  let ge : Bool :=
    if 0 ≤ g then decide (b * 2 ^ g.toNat ≤ a) else decide (b ≤ a * 2 ^ (-g).toNat)
  let s : Int := (if ge then g else g - 1) - 52
  if 0 ≤ s then (roundHalfEven a (b * 2 ^ s.toNat) * 2 ^ s.toNat, 1)
  else (roundHalfEven (a * 2 ^ (-s).toNat) b, 2 ^ (-s).toNat)

/-- Go `uint64(float64(f) * (float64(unit) / scale))` with `scale = 10^k`
(exact in `float64` for the `k ≤ 19` digits `leadingFraction` accumulates):
each of the conversion, the division and the product is rounded to `float64`,
and the conversion to `uint64` truncates. -/
def fracFloat64 (f unit k : Nat) : Nat :=
  let x := toFloat64 f 1
  let y := toFloat64 unit (10 ^ k)
  let z := toFloat64 (x.1 * y.1) (x.2 * y.2)
  z.1 / z.2

/-- Go `time.ParseDuration`: the parser used to evaluate the builtins on
concrete strings. -/
def goParse : String → Except String Int :=
  ParseDuration fracFloat64

/-! ## The builtins -/

/-- The builtin `run_every` (`runEvery`). `args` is the result of
`starlark.UnpackArgs`, `parse` is `time.ParseDuration`. -/
def runEvery (parse : String → Except String Int) (args : Except String (String × Function))
    (st : State) : Outcome × State :=
  match args with
  | .error e => (.err e, st)
  | .ok (every, fn) =>
    match parse every with
    | .error e => (.err e, st)
    | .ok d =>
      if st.locked then (.blocked, st) else
      let st1 := { st with locked := true }
      match NewTicker d st1 with
      | .error msg => (.panic msg, st1)
      | .ok (t, st2) =>
        let handle := st2.tickerCount
        let st3 := { st2 with tickers := insert handle t st2.tickers }
        let st4 := { st3 with tickerCount := wrap64 (st3.tickerCount + 1) }
        let st5 := { st4 with locked := false }
        let st6 := logSend .debug "Created new ticker"
          [("handle", .int handle), ("duration", .str every)] st5
        let st7 := { st6 with tasks := st6.tasks ++ [{ ticker := t, fn := fn }] }
        (.ret (.handle handle), st7)

/-- The builtin `sleep`. `args` is the result of `starlark.UnpackArgs`. -/
def sleep (parse : String → Except String Int) (args : Except String String) (st : State) :
    Outcome × State :=
  match args with
  | .error e => (.err e, st)
  | .ok duration =>
    match parse duration with
    | .error e => (.err e, st)
    | .ok d =>
      let st1 := logSend .debug "Sleeping" [("duration", .str duration)] st
      let st2 := Sleep d st1
      (.ret .none, st2)

/-- The builtin returned by `stopTicker handle`; its Starlark arguments are
ignored by the source. -/
def stopTicker (handle : Int) (st : State) : Outcome × State :=
  if st.locked then (.blocked, st) else
  let st1 := { st with locked := true }
  match lookup handle st1.tickers with
  | none => (.panic "invalid memory address or nil pointer dereference", st1)
  | some t =>
    let st2 := Ticker.Stop t st1
    let st3 := { st2 with tickers := erase handle st2.tickers }
    let st4 := { st3 with locked := false }
    let st5 := logSend .debug "Stopped ticker" [("handle", .int handle)] st4
    (.ret .none, st5)

/-! ## The goroutine of a timer -/

/-- Go `starlark.Call(thread, fn, nil, nil)`: the interpreter runs the callback
`fn`. The interpreter is external; `σ` is the state of the script, which the
callback may change, as it may change the registry by calling the builtins. It
returns the error of the callback, if any (the value is discarded by the
source). -/
abbrev Interp (σ : Type) :=
  Function → State × σ → Except String Unit × (State × σ)

/-- One iteration of `for range t.C`: log, call the callback, and log its
error if it returned one. -/
def loopBody {σ : Type} (call : Interp σ) (fn : Function) (w : State × σ) : State × σ :=
  let st1 := logSend .debug "Calling scheduled function"
    [("name", .str fn.name), ("pos", .str fn.pos)] w.1
  let r := call fn (st1, w.2)
  match r.1 with
  | .error e =>
    (logSend .warn "Error while executing scheduled function"
      [("name", .str fn.name), ("pos", .str fn.pos), ("error", .str e)] r.2.1, r.2.2)
  | .ok _ => r.2

/-- The goroutine body: one `loopBody` per tick received from the channel
`t.C`; the time carried by a tick is not read. -/
def runner {σ : Type} (call : Interp σ) (fn : Function) (ticks : List Int) (w : State × σ) :
    State × σ :=
  ticks.foldl (fun acc _ => loopBody call fn acc) w

/-- A callback that counts its invocations in the script state and returns,
at its invocation number `i`, the outcome `outs i`; it leaves the registry
alone. -/
def countingCall (outs : Nat → Except String Unit) : Interp Nat :=
  fun _ w => (outs w.2, (w.1, w.2 + 1))

/-- The records the goroutine of `fn` is expected to log over `n` ticks when
the invocations are numbered from `c`: one debug record per tick, followed by
one warning when that invocation returned an error. -/
def expectedLog (fn : Function) (outs : Nat → Except String Unit) : Nat → Nat → List LogEntry
  | _, 0 => []
  | c, n + 1 =>
    (LogEntry.mk .debug "Calling scheduled function"
        [("name", .str fn.name), ("pos", .str fn.pos)] ::
      (match outs c with
        | .error e =>
          [LogEntry.mk .warn "Error while executing scheduled function"
            [("name", .str fn.name), ("pos", .str fn.pos), ("error", .str e)]]
        | .ok _ => [])) ++ expectedLog fn outs (c + 1) n

/-- Outcomes for a sample run: the second invocation fails, the others succeed. -/
def sampleOutcomes (i : Nat) : Except String Unit :=
  if i = 1 then .error "boom" else .ok ()

/-! ## Sequences of operations -/

/-- A call made by a script: `run_every(...)`, `sleep(...)`, or `stop()` on the
struct that `newTickerHandle handle` built. -/
inductive Op where
  | runEvery (args : Except String (String × Function))
  | stop (handle : Int)
  | sleep (args : Except String String)

/-- Run one call. -/
def step (parse : String → Except String Int) (st : State) : Op → Outcome × State
  | .runEvery args => runEvery parse args st
  | .stop h => stopTicker h st
  | .sleep args => sleep parse args st

/-- Run the calls in order (the order of their critical sections); returns the
outcome of each and the final state. -/
def exec (parse : String → Except String Int) (st : State) : List Op → List Outcome × State
  | [] => ([], st)
  | op :: rest =>
    let r := step parse st op
    let rs := exec parse r.2 rest
    (r.1 :: rs.1, rs.2)

/-- The handle ids returned by the successful `run_every` calls, in order. -/
def handlesOf : List Outcome → List Int
  | [] => []
  | .ret (.handle h) :: rest => h :: handlesOf rest
  | _ :: rest => handlesOf rest

/-- Whether a call returned a value without error. -/
def Outcome.succeeded : Outcome → Bool
  | .ret _ => true
  | _ => false

/-- The registry part of two states agrees: mutex, counter, map, ticker
objects and goroutines. -/
def sameRegistry (a b : State) : Prop :=
  a.locked = b.locked ∧ a.tickerCount = b.tickerCount ∧ a.tickers = b.tickers ∧
    a.heap = b.heap ∧ a.tasks = b.tasks

/-- Every outcome of the list is a successful return. -/
def allSucceeded (outs : List Outcome) : Bool :=
  outs.all Outcome.succeeded

/-- The representation invariant of the registry: the mutex is free between
calls, the counter is the number of tickers allocated so far (as a Go `int`),
and every key maps to a live ticker object, the one allocated when the key was
handed out. -/
def Inv (st : State) : Prop :=
  st.locked = false ∧ st.tickerCount = wrap64 st.heap.length ∧
    ∀ k p, lookup k st.tickers = some p →
      p < st.heap.length ∧ ticking st p = true ∧ k = wrap64 p

/-- The id `h` was handed out for the ticker object `p`, that object has been
stopped, and `h` is not a key of the map. -/
def StoppedAt (h : Int) (p : Nat) (st : State) : Prop :=
  Inv st ∧ lookup h st.tickers = none ∧ halted st p = true ∧ p < st.heap.length ∧
    h = wrap64 p

/-- An upper bound on the number of goroutines a process can hold: the stack
of a goroutine takes at least 2048 bytes and a 64-bit address space has `2^64`
bytes, so at most `2^53` goroutines exist at a time. -/
def maxGoroutines : Nat :=
  9007199254740992

/-- The goroutines the state records fit in the memory of a 64-bit process.
The goroutine that `run_every` starts never returns (`for range t.C` ends only
when the channel is closed, and `Stop` does not close it), so every timer
created so far still holds its goroutine and its ticker. -/
def fitsInMemory (st : State) : Bool :=
  decide (st.tasks.length ≤ maxGoroutines)

/-- A sample callback. -/
def sampleFn : Function :=
  { name := "check", pos := "plugin.star:3:1" }

/-! ## Lemmas on the map -/

theorem lookup_erase (k h : Int) (m : List (Int × Nat)) :
    lookup k (erase h m) = if k = h then none else lookup k m := by
  induction m with
  | nil => simp [erase, lookup]
  | cons e rest ih =>
    obtain ⟨k1, v⟩ := e
    by_cases h1 : k1 = h
    · have : erase h ((k1, v) :: rest) = erase h rest := by simp [erase, h1]
      rw [this, ih]
      by_cases h2 : k = h
      · simp [h2]
      · have h3 : ¬ k1 = k := fun h4 => h2 (h4 ▸ h1)
        simp [h2, lookup, h3]
    · have : erase h ((k1, v) :: rest) = (k1, v) :: erase h rest := by simp [erase, h1]
      rw [this]
      by_cases h2 : k = h
      · subst h2
        simp only [lookup, h1, if_false, ih, if_true]
      · by_cases h3 : k1 = k
        · simp [lookup, h3, h2]
        · simp only [lookup, h3, if_false, ih, h2]

theorem lookup_insert (k h : Int) (v : Nat) (m : List (Int × Nat)) :
    lookup k (insert h v m) = if k = h then some v else lookup k m := by
  by_cases h1 : k = h
  · simp [insert, lookup, h1]
  · have h2 : ¬ h = k := fun h3 => h1 h3.symm
    simp [insert, lookup, h1, h2, lookup_erase]

theorem mem_keys_iff (k : Int) (m : List (Int × Nat)) :
    k ∈ keys m ↔ ∃ p, lookup k m = some p := by
  induction m with
  | nil => simp [keys, lookup]
  | cons e rest ih =>
    obtain ⟨k1, v⟩ := e
    by_cases h1 : k1 = k
    · simp [keys, lookup, h1]
    · have h2 : ¬ k = k1 := fun h3 => h1 h3.symm
      have ih2 : k ∈ List.map Prod.fst rest ↔ ∃ p, lookup k rest = some p := ih
      simp only [keys, List.map_cons, List.mem_cons, h2, false_or, lookup, h1, if_false]
      exact ih2

/-! ## Lemmas on the counter -/

theorem wrap64_of_range (x : Int) (h1 : -9223372036854775808 ≤ x) (h2 : x < 9223372036854775808) :
    wrap64 x = x := by
  unfold wrap64
  omega

theorem wrap64_succ (x : Int) : wrap64 (wrap64 x + 1) = wrap64 (x + 1) := by
  unfold wrap64
  omega

theorem wrap64_inj (p q : Nat) (hp : p < 18446744073709551616) (hq : q < 18446744073709551616)
    (h : wrap64 p = wrap64 q) : p = q := by
  unfold wrap64 at h
  omega

/-! ## One call -/

theorem runEvery_ok (parse : String → Except String Int) (every : String) (fn : Function)
    (d : Int) (st : State) (hp : parse every = .ok d) (hd : 0 < d) (hl : st.locked = false) :
    runEvery parse (.ok (every, fn)) st =
      (.ret (.handle st.tickerCount),
        { st with
          tickers := insert st.tickerCount st.heap.length st.tickers,
          tickerCount := wrap64 (st.tickerCount + 1),
          heap := st.heap ++ [{ d := d, stopped := false }],
          log := st.log ++ [LogEntry.mk .debug "Created new ticker"
            [("handle", .int st.tickerCount), ("duration", .str every)]],
          tasks := st.tasks ++ [{ ticker := st.heap.length, fn := fn }] }) := by
  have hd2 : ¬ d ≤ 0 := by omega
  simp [runEvery, hp, hl, NewTicker, hd2, logSend]

theorem runEvery_panics_of_nonpositive (parse : String → Except String Int) (every : String)
    (fn : Function) (d : Int) (st : State) (hp : parse every = .ok d) (hd : d ≤ 0)
    (hl : st.locked = false) :
    runEvery parse (.ok (every, fn)) st =
      (.panic "non-positive interval for NewTicker", { st with locked := true }) := by
  simp [runEvery, hp, hl, NewTicker, hd]

theorem stopTicker_present (h : Int) (p : Nat) (st : State) (hl : st.locked = false)
    (hp : lookup h st.tickers = some p) :
    stopTicker h st =
      (.ret .none,
        { st with
          heap := st.heap.modify (fun tk => { tk with stopped := true }) p,
          tickers := erase h st.tickers,
          log := st.log ++ [LogEntry.mk .debug "Stopped ticker" [("handle", .int h)]] }) := by
  simp [stopTicker, hl, hp, Ticker.Stop, logSend]

theorem stopTicker_absent (h : Int) (st : State) (hl : st.locked = false)
    (hp : lookup h st.tickers = none) :
    stopTicker h st =
      (.panic "invalid memory address or nil pointer dereference", { st with locked := true }) := by
  simp [stopTicker, hl, hp]

/-- A call that returns a value is one of three: a creation with a positive
duration, a stop of a key that is present, or a sleep; each from a state in
which the mutex is free (a sleep does not take it). -/
theorem step_succeeded (parse : String → Except String Int) (st : State) (op : Op)
    (h : (step parse st op).1.succeeded = true) :
    (∃ every fn d, op = .runEvery (.ok (every, fn)) ∧ parse every = .ok d ∧ 0 < d ∧
        st.locked = false) ∨
    (∃ hd p, op = .stop hd ∧ st.locked = false ∧ lookup hd st.tickers = some p) ∨
    (∃ duration d, op = .sleep (.ok duration) ∧ parse duration = .ok d) := by
  cases op with
  | runEvery args =>
    left
    cases args with
    | error e => simp [step, runEvery, Outcome.succeeded] at h
    | ok a =>
      obtain ⟨every, fn⟩ := a
      cases hp : parse every with
      | error e => simp [step, runEvery, hp, Outcome.succeeded] at h
      | ok d =>
        cases hl : st.locked with
        | true => simp [step, runEvery, hp, hl, Outcome.succeeded] at h
        | false =>
          by_cases hd : d ≤ 0
          · simp [step, runEvery, hp, hl, NewTicker, hd, Outcome.succeeded] at h
          · exact ⟨every, fn, d, rfl, hp, by omega, by first | exact hl | rfl⟩
  | stop hd =>
    right; left
    cases hl : st.locked with
    | true => simp [step, stopTicker, hl, Outcome.succeeded] at h
    | false =>
      cases hp : lookup hd st.tickers with
      | none => simp [step, stopTicker, hl, hp, Outcome.succeeded] at h
      | some p => exact ⟨hd, p, rfl, by first | exact hl | rfl, hp⟩
  | sleep args =>
    right; right
    cases args with
    | error e => simp [step, sleep, Outcome.succeeded] at h
    | ok duration =>
      cases hp : parse duration with
      | error e => simp [step, sleep, hp, Outcome.succeeded] at h
      | ok d => exact ⟨duration, d, rfl, hp⟩

theorem sleep_ok (parse : String → Except String Int) (duration : String) (d : Int) (st : State)
    (hp : parse duration = .ok d) :
    sleep parse (.ok duration) st =
      (.ret .none,
        { st with
          log := st.log ++ [LogEntry.mk .debug "Sleeping" [("duration", .str duration)]],
          slept := st.slept ++ [d] }) := by
  simp [sleep, hp, logSend, Sleep]

theorem Inv_initial : Inv initial := by
  refine ⟨rfl, ?_, ?_⟩
  · simp [initial, wrap64]
  · intro k p h
    simp [initial, lookup] at h

/-- The invariant is kept by every call that returns a value. -/
theorem Inv_step (parse : String → Except String Int) (st : State) (op : Op) (hi : Inv st)
    (h : (step parse st op).1.succeeded = true) : Inv (step parse st op).2 := by
  obtain ⟨hl, hc, hk⟩ := hi
  rcases step_succeeded parse st op h with ⟨every, fn, d, rfl, hp, hd, _⟩ |
    ⟨hd, p, rfl, _, hp⟩ | ⟨duration, d, rfl, hp⟩
  · simp only [step, runEvery_ok parse every fn d st hp hd hl]
    refine ⟨hl, ?_, ?_⟩
    · simp only [List.length_append, List.length_singleton, hc]
      rw [wrap64_succ]
      norm_cast
    · intro k p hkp
      simp only [lookup_insert] at hkp
      by_cases h1 : k = st.tickerCount
      · simp only [h1, if_true, Option.some.injEq] at hkp
        subst hkp
        refine ⟨by simp, ?_, by rw [h1, hc]⟩
        simp [ticking]
      · simp only [h1, if_false] at hkp
        obtain ⟨h2, h3, h4⟩ := hk k p hkp
        refine ⟨by simp; omega, ?_, h4⟩
        simp only [ticking] at h3 ⊢
        rw [List.getElem?_append_left h2]
        exact h3
  · simp only [step, stopTicker_present hd p st hl hp]
    refine ⟨hl, by simpa using hc, ?_⟩
    intro k q hkq
    simp only [lookup_erase] at hkq
    by_cases h1 : k = hd
    · simp [h1] at hkq
    · simp only [h1, if_false] at hkq
      obtain ⟨h2, h3, h4⟩ := hk k q hkq
      obtain ⟨_, _, h5⟩ := hk hd p hp
      have h6 : q ≠ p := by
        intro h7
        apply h1
        rw [h4, h5, h7]
      refine ⟨by simpa using h2, ?_, h4⟩
      simp only [ticking] at h3 ⊢
      rw [List.getElem?_modify_ne _ _ (Ne.symm h6)]
      exact h3
  · simp only [step, sleep_ok parse duration d st hp]
    exact ⟨hl, hc, hk⟩

theorem exec_append (parse : String → Except String Int) (st : State) (a b : List Op) :
    exec parse st (a ++ b) =
      ((exec parse st a).1 ++ (exec parse (exec parse st a).2 b).1,
        (exec parse (exec parse st a).2 b).2) := by
  induction a generalizing st with
  | nil => simp [exec]
  | cons op rest ih => simp [exec, ih]

/-- The invariant holds after every sequence of calls that all return a value. -/
theorem Inv_exec (parse : String → Except String Int) (ops : List Op) (st : State) (hi : Inv st)
    (h : allSucceeded (exec parse st ops).1 = true) : Inv (exec parse st ops).2 := by
  induction ops generalizing st with
  | nil => simpa [exec] using hi
  | cons op rest ih =>
    simp only [exec, allSucceeded, List.all_cons, Bool.and_eq_true] at h ⊢
    exact ih _ (Inv_step parse st op hi h.1) h.2

/-- A call either hands out the current counter value and increments it, or
hands out nothing and leaves the counter alone. -/
theorem step_counter (parse : String → Except String Int) (st : State) (op : Op) :
    ((step parse st op).1 = .ret (.handle st.tickerCount) ∧
        (step parse st op).2.tickerCount = wrap64 (st.tickerCount + 1) ∧
        (step parse st op).2.heap.length = st.heap.length + 1) ∨
    ((∀ h, (step parse st op).1 ≠ .ret (.handle h)) ∧
        (step parse st op).2.tickerCount = st.tickerCount ∧
        (step parse st op).2.heap.length = st.heap.length) := by
  cases op with
  | runEvery args =>
    cases args with
    | error e => right; simp [step, runEvery]
    | ok a =>
      obtain ⟨every, fn⟩ := a
      cases hp : parse every with
      | error e => right; simp [step, runEvery, hp]
      | ok d =>
        cases hl : st.locked with
        | true => right; simp [step, runEvery, hp, hl]
        | false =>
          by_cases hd : d ≤ 0
          · right; simp [step, runEvery, hp, hl, NewTicker, hd]
          · left
            simp [step, runEvery_ok parse every fn d st hp (by omega) hl]
  | stop hd =>
    right
    cases hl : st.locked with
    | true => simp [step, stopTicker, hl]
    | false =>
      cases hp : lookup hd st.tickers with
      | none => simp [step, stopTicker, hl, hp]
      | some p => simp [step, stopTicker_present hd p st hl hp]
  | sleep args =>
    right
    cases args with
    | error e => simp [step, sleep]
    | ok duration =>
      cases hp : parse duration with
      | error e => simp [step, sleep, hp]
      | ok d => simp [step, sleep_ok parse duration d st hp]

/-- The number of ticker objects grows by one per handle handed out. -/
theorem exec_heap_length (parse : String → Except String Int) (ops : List Op) (st : State) :
    (exec parse st ops).2.heap.length =
      st.heap.length + (handlesOf (exec parse st ops).1).length := by
  induction ops generalizing st with
  | nil => simp [exec, handlesOf]
  | cons op rest ih =>
    simp only [exec]
    rw [ih]
    rcases step_counter parse st op with ⟨h1, _, h3⟩ | ⟨h1, _, h3⟩
    · rw [h1, h3]
      simp only [handlesOf, List.length_cons]
      omega
    · rw [h3]
      have : handlesOf ((step parse st op).1 :: (exec parse (step parse st op).2 rest).1) =
          handlesOf (exec parse (step parse st op).2 rest).1 := by
        cases hs : (step parse st op).1 with
        | ret v =>
          cases v with
          | none => simp [handlesOf]
          | handle hh => exact absurd hs (h1 hh)
        | err e => simp [handlesOf]
        | panic m => simp [handlesOf]
        | blocked => simp [handlesOf]
      rw [this]

theorem exec_initial_heap_length (parse : String → Except String Int) (ops : List Op) :
    (exec parse initial ops).2.heap.length = (handlesOf (exec parse initial ops).1).length := by
  have h1 := exec_heap_length parse ops initial
  have h0 : initial.heap.length = 0 := rfl
  omega

theorem allSucceeded_append (a b : List Outcome) :
    allSucceeded (a ++ b) = (allSucceeded a && allSucceeded b) := by
  simp [allSucceeded, List.all_append]

theorem exec_singleton (parse : String → Except String Int) (st : State) (op : Op) :
    exec parse st [op] = ([(step parse st op).1], (step parse st op).2) := by
  simp [exec]

/-- A stopped ticker object stays stopped when some ticker is stopped. -/
theorem halted_modify (hp : List Ticker) (p q : Nat)
    (h : (match hp[p]? with | some tk => tk.stopped | none => false) = true) :
    (match (hp.modify (fun tk => { tk with stopped := true }) q)[p]? with
      | some tk => tk.stopped | none => false) = true := by
  by_cases hq : q = p
  · subst hq
    rw [List.getElem?_modify_eq]
    cases h1 : hp[q]? with
    | none => simp [h1] at h
    | some tk => simp
  · rw [List.getElem?_modify_ne _ _ hq]
    exact h

/-- No call turns a stopped ticker on again, whatever its outcome. -/
theorem halted_step (parse : String → Except String Int) (st : State) (op : Op) (p : Nat)
    (h : halted st p = true) : halted (step parse st op).2 p = true := by
  have hlt : p < st.heap.length := by
    by_contra hge
    have : st.heap[p]? = none := List.getElem?_eq_none (by omega)
    simp [halted, this] at h
  cases op with
  | runEvery args =>
    cases args with
    | error e => simpa [step, runEvery] using h
    | ok a =>
      obtain ⟨every, fn⟩ := a
      cases hp : parse every with
      | error e => simpa [step, runEvery, hp] using h
      | ok d =>
        cases hl : st.locked with
        | true => simpa [step, runEvery, hp, hl] using h
        | false =>
          by_cases hd : d ≤ 0
          · simpa [step, runEvery, hp, hl, NewTicker, hd, halted] using h
          · simp only [step, runEvery_ok parse every fn d st hp (by omega) hl]
            simp only [halted] at h ⊢
            rw [List.getElem?_append_left hlt]
            exact h
  | stop hd =>
    cases hl : st.locked with
    | true => simpa [step, stopTicker, hl] using h
    | false =>
      cases hp : lookup hd st.tickers with
      | none => simpa [step, stopTicker, hl, hp, halted] using h
      | some q =>
        simp only [step, stopTicker_present hd q st hl hp]
        simp only [halted] at h ⊢
        exact halted_modify st.heap p q h
  | sleep args =>
    cases args with
    | error e => simpa [step, sleep] using h
    | ok duration =>
      cases hp : parse duration with
      | error e => simpa [step, sleep, hp] using h
      | ok d => simpa [step, sleep_ok parse duration d st hp, halted] using h

theorem StoppedAt_step (parse : String → Except String Int) (h : Int) (p : Nat) (st : State)
    (op : Op) (hs : StoppedAt h p st) (hok : (step parse st op).1.succeeded = true)
    (hb : (step parse st op).2.heap.length ≤ 18446744073709551616) :
    StoppedAt h p (step parse st op).2 := by
  have hinv := Inv_step parse st op hs.1 hok
  obtain ⟨⟨hl, hc, hk⟩, hn, hh, hlt, hw⟩ := hs
  refine ⟨hinv, ?_⟩
  rcases step_succeeded parse st op hok with ⟨every, fn, d, rfl, hp, hd, _⟩ |
    ⟨hd, q, rfl, _, hq⟩ | ⟨duration, d, rfl, hp⟩
  · simp only [step, runEvery_ok parse every fn d st hp hd hl] at hb ⊢
    simp only [List.length_append, List.length_singleton] at hb
    refine ⟨?_, ?_, by simp; omega, hw⟩
    · rw [lookup_insert]
      have h1 : h ≠ st.tickerCount := by
        intro h2
        rw [hw, hc] at h2
        have := wrap64_inj p st.heap.length (by omega) (by omega) h2
        omega
      simp [h1, hn]
    · simp only [halted] at hh ⊢
      rw [List.getElem?_append_left hlt]
      exact hh
  · simp only [step, stopTicker_present hd q st hl hq]
    refine ⟨?_, ?_, by simpa using hlt, hw⟩
    · rw [lookup_erase, hn]
      simp
    · simp only [halted] at hh ⊢
      exact halted_modify st.heap p q hh
  · simp only [step, sleep_ok parse duration d st hp]
    exact ⟨hn, hh, hlt, hw⟩

theorem StoppedAt_exec (parse : String → Except String Int) (h : Int) (p : Nat) (ops : List Op)
    (st : State) (hs : StoppedAt h p st) (hok : allSucceeded (exec parse st ops).1 = true)
    (hb : (exec parse st ops).2.heap.length ≤ 18446744073709551616) :
    StoppedAt h p (exec parse st ops).2 := by
  induction ops generalizing st with
  | nil => simpa [exec] using hs
  | cons op rest ih =>
    simp only [exec, allSucceeded, List.all_cons, Bool.and_eq_true] at hok hb ⊢
    have h1 := exec_heap_length parse rest (step parse st op).2
    exact ih _ (StoppedAt_step parse h p st op hs hok.1 (by omega)) hok.2 hb

/-- A call starts a goroutine exactly when it allocates a ticker. -/
theorem step_tasks_heap (parse : String → Except String Int) (st : State) (op : Op)
    (h : st.tasks.length = st.heap.length) :
    (step parse st op).2.tasks.length = (step parse st op).2.heap.length := by
  cases op with
  | runEvery args =>
    cases args with
    | error e => simpa [step, runEvery] using h
    | ok a =>
      obtain ⟨every, fn⟩ := a
      cases hp : parse every with
      | error e => simpa [step, runEvery, hp] using h
      | ok d =>
        cases hl : st.locked with
        | true => simpa [step, runEvery, hp, hl] using h
        | false =>
          by_cases hd : d ≤ 0
          · simpa [step, runEvery, hp, hl, NewTicker, hd] using h
          · simp only [step, runEvery_ok parse every fn d st hp (by omega) hl]
            simp [h]
  | stop hd =>
    cases hl : st.locked with
    | true => simpa [step, stopTicker, hl] using h
    | false =>
      cases hp : lookup hd st.tickers with
      | none => simpa [step, stopTicker, hl, hp] using h
      | some q =>
        simp only [step, stopTicker_present hd q st hl hp]
        simpa using h
  | sleep args =>
    cases args with
    | error e => simpa [step, sleep] using h
    | ok duration =>
      cases hp : parse duration with
      | error e => simpa [step, sleep, hp] using h
      | ok d => simpa [step, sleep_ok parse duration d st hp] using h

theorem exec_tasks_heap (parse : String → Except String Int) (ops : List Op) (st : State)
    (h : st.tasks.length = st.heap.length) :
    (exec parse st ops).2.tasks.length = (exec parse st ops).2.heap.length := by
  induction ops generalizing st with
  | nil => simpa [exec] using h
  | cons op rest ih =>
    simp only [exec]
    exact ih _ (step_tasks_heap parse st op h)

/-- From the initial state, the goroutines held are as many as the handles
handed out. -/
theorem exec_initial_tasks_length (parse : String → Except String Int) (ops : List Op) :
    (exec parse initial ops).2.tasks.length = (handlesOf (exec parse initial ops).1).length := by
  rw [exec_tasks_heap parse ops initial rfl]
  exact exec_initial_heap_length parse ops

/-- The fuel given by `bitLen` is never used up: more fuel does not change the
result. -/
theorem bitLenAux_fuel (f1 f2 n acc : Nat) (h1 : n ≤ f1) (h2 : n ≤ f2) :
    bitLenAux f1 n acc = bitLenAux f2 n acc := by
  induction f1 generalizing f2 n acc with
  | zero =>
    have hn : n = 0 := by omega
    subst hn
    cases f2 <;> simp [bitLenAux]
  | succ f1 ih =>
    cases f2 with
    | zero =>
      have hn : n = 0 := by omega
      subst hn
      simp [bitLenAux]
    | succ f2 =>
      simp only [bitLenAux]
      split
      · rfl
      · exact ih f2 (n / 2) (acc + 1) (by omega) (by omega)

/-! ## The parser terminates within its fuel -/

theorem leadingInt_length (s : List Char) (x v : Nat) (s1 : List Char)
    (h : leadingInt s x = some (v, s1)) : s1.length ≤ s.length := by
  induction s generalizing x with
  | nil =>
    simp [leadingInt] at h
    simp [h.2.symm]
  | cons c rest ih =>
    unfold leadingInt at h
    split at h
    · simp only [Option.some.injEq, Prod.mk.injEq] at h
      rw [← h.2]
    · split at h
      · cases h
      · simp only at h
        split at h
        · cases h
        · have := ih _ h
          simp only [List.length_cons]
          omega

theorem leadingFraction_length (s : List Char) (x k : Nat) (ov : Bool) :
    (leadingFraction s x k ov).2.2.length ≤ s.length := by
  induction s generalizing x k ov with
  | nil => simp [leadingFraction]
  | cons c rest ih =>
    unfold leadingFraction
    split
    · simp
    · split
      · have := ih x k true
        simp only [List.length_cons]
        omega
      · split
        · have := ih x k true
          simp only [List.length_cons]
          omega
        · simp only
          split
          · have := ih x k true
            simp only [List.length_cons]
            omega
          · have := ih (x * 10 + (c.toNat - 48)) (k + 1) false
            simp only [List.length_cons]
            omega

theorem dropWhile_length_lt (q : Char → Bool) (l : List Char) (h : l.takeWhile q ≠ []) :
    (l.dropWhile q).length < l.length := by
  have h1 := congrArg List.length (List.takeWhile_append_dropWhile q l)
  rw [List.length_append] at h1
  have h2 : 0 < (l.takeWhile q).length := List.length_pos.2 h
  omega

theorem fractionPart_length (s1 : List Char) : (fractionPart s1).2.2.2.length ≤ s1.length := by
  cases s1 with
  | nil => simp [fractionPart]
  | cons c1 s1' =>
    simp only [fractionPart]
    split
    · have := leadingFraction_length s1' 0 0 false
      simp only [List.length_cons]
      omega
    · simp

theorem parseSegment_length (frac : Nat → Nat → Nat → Nat) (c : Char) (rest : List Char)
    (d : Nat) (s3 : List Char) (d1 : Nat) (h : parseSegment frac c rest d = .ok (s3, d1)) :
    s3.length ≤ rest.length := by
  unfold parseSegment at h
  split at h
  · cases h
  · split at h
    · cases h
    · rename_i v s1 hli
      have hl1 := leadingInt_length _ _ _ _ hli
      have h2 := fractionPart_length s1
      simp only at h
      split at h
      · cases h
      · split at h
        · cases h
        · rename_i hu
          have hd := dropWhile_length_lt _ _ hu
          simp only [List.length_cons] at hl1
          split at h
          · cases h
          · split_ifs at h <;>
              first
              | (cases h; done)
              | (simp only [Except.ok.injEq, Prod.mk.injEq] at h
                 rw [← h.1]
                 omega)

theorem parseLoop_fuel_irrelevant (frac : Nat → Nat → Nat → Nat) (n m : Nat) (s : List Char)
    (d : Nat) (hn : s.length ≤ n) (hm : s.length ≤ m) :
    parseLoop frac n s d = parseLoop frac m s d := by
  induction n generalizing m s d with
  | zero =>
    cases s with
    | nil => cases m <;> simp [parseLoop]
    | cons c rest => simp at hn
  | succ n ih =>
    cases s with
    | nil => cases m <;> simp [parseLoop]
    | cons c rest =>
      cases m with
      | zero => simp at hm
      | succ m =>
        simp only [parseLoop]
        cases hseg : parseSegment frac c rest d with
        | error e => rfl
        | ok r =>
          obtain ⟨s3, d1⟩ := r
          have := parseSegment_length frac c rest d s3 d1 hseg
          simp only [List.length_cons] at hn hm
          exact ih m s3 d1 (by omega) (by omega)

/-- The fuel given by `ParseDuration` is never used up: more fuel does not
change the result. -/
theorem parseLoop_fuel (frac : Nat → Nat → Nat → Nat) (n : Nat) (s : List Char) (d : Nat)
    (hn : s.length ≤ n) : parseLoop frac n s d = parseLoop frac s.length s d :=
  parseLoop_fuel_irrelevant frac n s.length s d hn (Nat.le_refl _)

/-! ## The claims -/

/-- C1 (the code at the failing input): `run_every("-5s", f)` from the initial
registry. The string parses to -5 s, nothing rejects the non-positive interval,
and `time.NewTicker` panics inside the critical section: the call does not
return an error, and `tickerMtx` stays locked. The same happens for `"0s"`. -/
theorem runEvery_nonpositive_panics :
    goParse "-5s" = .ok (-5000000000) ∧
    runEvery goParse (.ok ("-5s", sampleFn)) initial =
      (.panic "non-positive interval for NewTicker", { initial with locked := true }) ∧
    goParse "0s" = .ok 0 ∧
    runEvery goParse (.ok ("0s", sampleFn)) initial =
      (.panic "non-positive interval for NewTicker", { initial with locked := true }) := by
  decide

/-- C2 (the code at the failing input): `h = run_every("1s", f); h.stop();
h.stop()`. The first stop returns None and removes key 0; the second reads nil
from the map, calls `Stop` through it and panics with `tickerMtx` held, so the
registry is not left as it was (the mutex stays locked). -/
theorem stop_twice_panics :
    (exec goParse initial
        [.runEvery (.ok ("1s", sampleFn)), .stop 0, .stop 0]).1 =
      [.ret (.handle 0), .ret .none,
        .panic "invalid memory address or nil pointer dereference"] ∧
    (exec goParse initial [.runEvery (.ok ("1s", sampleFn)), .stop 0]).2.locked = false ∧
    lookup 0 (exec goParse initial [.runEvery (.ok ("1s", sampleFn)), .stop 0]).2.tickers
      = none ∧
    (exec goParse initial
        [.runEvery (.ok ("1s", sampleFn)), .stop 0, .stop 0]).2.locked = true := by
  decide

/-- C3: when `time.ParseDuration` rejects the duration string, `run_every`
returns that error and the whole state is as before: counter, map, ticker
objects, goroutines, mutex and log. -/
theorem runEvery_unparseable (parse : String → Except String Int) (every : String)
    (fn : Function) (e : String) (st : State) (h : parse every = .error e) :
    runEvery parse (.ok (every, fn)) st = (.err e, st) ∧
    (runEvery parse (.ok (every, fn)) st).2.tickerCount = st.tickerCount ∧
    keys (runEvery parse (.ok (every, fn)) st).2.tickers = keys st.tickers ∧
    (runEvery parse (.ok (every, fn)) st).2.tickers.length = st.tickers.length ∧
    (runEvery parse (.ok (every, fn)) st).2.heap = st.heap ∧
    (runEvery parse (.ok (every, fn)) st).2.tasks = st.tasks := by
  have h1 : runEvery parse (.ok (every, fn)) st = (.err e, st) := by simp [runEvery, h]
  simp [h1]

/-- C3 at `"abc"`, in a registry that already holds one timer. -/
theorem runEvery_unparseable_witness :
    goParse "abc" = .error "time: invalid duration" ∧
    runEvery goParse (.ok ("abc", sampleFn))
        (exec goParse initial [.runEvery (.ok ("1s", sampleFn))]).2 =
      (.err "time: invalid duration",
        (exec goParse initial [.runEvery (.ok ("1s", sampleFn))]).2) :=
  ⟨by decide,
    (runEvery_unparseable goParse "abc" sampleFn "time: invalid duration"
      (exec goParse initial [.runEvery (.ok ("1s", sampleFn))]).2 (by decide)).1⟩

/-- C5: in a registry that satisfies the representation invariant, `stop` on a
present id `h` returns None, removes key `h` and changes nothing else: every
other key `h2` is present iff it was, maps to the same ticker object, that
object is unchanged (so it is ticking iff it was), and the counter, the number
of ticker objects, the goroutines and the mutex are as before; the map after
the call is the map before with `h` deleted. -/
theorem stop_frame (st : State) (h h2 : Int) (p : Nat) (hne : h ≠ h2) (hi : Inv st)
    (hp : lookup h st.tickers = some p) :
    (stopTicker h st).1 = .ret .none ∧
    lookup h (stopTicker h st).2.tickers = none ∧
    (∀ k, k ≠ h → lookup k (stopTicker h st).2.tickers = lookup k st.tickers) ∧
    (h2 ∈ keys (stopTicker h st).2.tickers ↔ h2 ∈ keys st.tickers) ∧
    lookup h2 (stopTicker h st).2.tickers = lookup h2 st.tickers ∧
    (∀ q, lookup h2 st.tickers = some q →
      (stopTicker h st).2.heap[q]? = st.heap[q]? ∧
      ticking (stopTicker h st).2 q = ticking st q ∧
      halted (stopTicker h st).2 q = halted st q) ∧
    (∀ q, q ≠ p → (stopTicker h st).2.heap[q]? = st.heap[q]?) ∧
    (stopTicker h st).2.tickerCount = st.tickerCount ∧
    (stopTicker h st).2.heap.length = st.heap.length ∧
    (stopTicker h st).2.tasks = st.tasks ∧
    (stopTicker h st).2.locked = st.locked ∧
    (stopTicker h st).2.tickers = erase h st.tickers := by
  obtain ⟨hl, _, hk⟩ := hi
  have hlk : ∀ k, k ≠ h → lookup k (erase h st.tickers) = lookup k st.tickers := by
    intro k hk1
    simp [lookup_erase, hk1]
  have hq : ∀ q, lookup h2 st.tickers = some q → q ≠ p := by
    intro q hq1 hq2
    apply hne
    rw [(hk h p hp).2.2, (hk h2 q hq1).2.2, hq2]
  rw [stopTicker_present h p st hl hp]
  refine ⟨rfl, by simp [lookup_erase], hlk, ?_, hlk h2 (Ne.symm hne), ?_, ?_, rfl, by simp,
    rfl, rfl, rfl⟩
  · simp only [mem_keys_iff, hlk h2 (Ne.symm hne)]
  · intro q hq1
    have h3 := List.getElem?_modify_ne (fun tk : Ticker => { tk with stopped := true })
      st.heap (Ne.symm (hq q hq1))
    simp only [ticking, halted, h3, and_self]
  · intro q hq1
    exact List.getElem?_modify_ne _ _ (Ne.symm hq1)

/-- C5 on the registry reached by two creations: stopping handle 0 leaves
handle 1 alone. -/
theorem stop_frame_witness :
    lookup 1 (stopTicker 0 (exec goParse initial
        [.runEvery (.ok ("1s", sampleFn)), .runEvery (.ok ("2s", sampleFn))]).2).2.tickers =
      lookup 1 (exec goParse initial
        [.runEvery (.ok ("1s", sampleFn)), .runEvery (.ok ("2s", sampleFn))]).2.tickers :=
  (stop_frame (exec goParse initial
      [.runEvery (.ok ("1s", sampleFn)), .runEvery (.ok ("2s", sampleFn))]).2 0 1 0
    (by decide) (Inv_exec goParse _ initial Inv_initial (by decide)) (by decide)).2.2.2.2.1

/-- C6: the goroutine of a timer runs its loop body once per tick received and
goes on to the next tick whatever the callback returned. With a callback that
counts its invocations and returns an outcome chosen freely for each of them,
the count after the ticks is the number of ticks; the registry and the sleep
record are as before; the log gained one debug record per tick and one warning
per failed invocation, nothing else. For any interpreter, an error returned by
the callback only adds a warning to the state the callback left, and a success
adds nothing. -/
theorem runner_calls_every_tick (fn : Function) (outs : Nat → Except String Unit)
    (ticks : List Int) (st : State) (c : Nat) :
    (runner (countingCall outs) fn ticks (st, c)).2 = c + ticks.length ∧
    sameRegistry (runner (countingCall outs) fn ticks (st, c)).1 st ∧
    (runner (countingCall outs) fn ticks (st, c)).1.slept = st.slept ∧
    (runner (countingCall outs) fn ticks (st, c)).1.log =
      st.log ++ expectedLog fn outs c ticks.length ∧
    (∀ (σ : Type) (call : Interp σ) (t : Int) (rest : List Int) (w : State × σ),
      runner call fn (t :: rest) w = runner call fn rest (loopBody call fn w)) ∧
    (∀ (σ : Type) (call : Interp σ) (w : State × σ) (e : String),
      (call fn (logSend .debug "Calling scheduled function"
          [("name", .str fn.name), ("pos", .str fn.pos)] w.1, w.2)).1 = .error e →
      loopBody call fn w =
        (logSend .warn "Error while executing scheduled function"
            [("name", .str fn.name), ("pos", .str fn.pos), ("error", .str e)]
            (call fn (logSend .debug "Calling scheduled function"
              [("name", .str fn.name), ("pos", .str fn.pos)] w.1, w.2)).2.1,
          (call fn (logSend .debug "Calling scheduled function"
            [("name", .str fn.name), ("pos", .str fn.pos)] w.1, w.2)).2.2)) ∧
    (∀ (σ : Type) (call : Interp σ) (w : State × σ) (u : Unit),
      (call fn (logSend .debug "Calling scheduled function"
          [("name", .str fn.name), ("pos", .str fn.pos)] w.1, w.2)).1 = .ok u →
      loopBody call fn w =
        (call fn (logSend .debug "Calling scheduled function"
          [("name", .str fn.name), ("pos", .str fn.pos)] w.1, w.2)).2) := by
  have hcons : ∀ (σ : Type) (call : Interp σ) (t : Int) (rest : List Int) (w : State × σ),
      runner call fn (t :: rest) w = runner call fn rest (loopBody call fn w) := by
    intro σ call t rest w
    simp [runner]
  have hmain : ∀ (tks : List Int) (s0 : State) (c0 : Nat),
      (runner (countingCall outs) fn tks (s0, c0)).2 = c0 + tks.length ∧
      sameRegistry (runner (countingCall outs) fn tks (s0, c0)).1 s0 ∧
      (runner (countingCall outs) fn tks (s0, c0)).1.slept = s0.slept ∧
      (runner (countingCall outs) fn tks (s0, c0)).1.log =
        s0.log ++ expectedLog fn outs c0 tks.length := by
    intro tks
    induction tks with
    | nil =>
      intro s0 c0
      simp [runner, sameRegistry, expectedLog]
    | cons t rest ih =>
      intro s0 c0
      rw [hcons]
      cases ho : outs c0 with
      | error e =>
        have hb : loopBody (countingCall outs) fn (s0, c0) =
            (logSend .warn "Error while executing scheduled function"
              [("name", .str fn.name), ("pos", .str fn.pos), ("error", .str e)]
              (logSend .debug "Calling scheduled function"
                [("name", .str fn.name), ("pos", .str fn.pos)] s0), c0 + 1) := by
          simp [loopBody, countingCall, ho]
        rw [hb]
        obtain ⟨i1, i2, i3, i4⟩ := ih _ (c0 + 1)
        refine ⟨by rw [i1]; simp only [List.length_cons]; omega, ?_, ?_, ?_⟩
        · unfold sameRegistry at i2 ⊢
          simpa [logSend] using i2
        · simpa [logSend] using i3
        · rw [i4]
          simp [logSend, expectedLog, ho]
      | ok u =>
        have hb : loopBody (countingCall outs) fn (s0, c0) =
            (logSend .debug "Calling scheduled function"
              [("name", .str fn.name), ("pos", .str fn.pos)] s0, c0 + 1) := by
          simp [loopBody, countingCall, ho]
        rw [hb]
        obtain ⟨i1, i2, i3, i4⟩ := ih _ (c0 + 1)
        refine ⟨by rw [i1]; simp only [List.length_cons]; omega, ?_, ?_, ?_⟩
        · unfold sameRegistry at i2 ⊢
          simpa [logSend] using i2
        · simpa [logSend] using i3
        · rw [i4]
          simp [logSend, expectedLog, ho]
  obtain ⟨m1, m2, m3, m4⟩ := hmain ticks st c
  refine ⟨m1, m2, m3, m4, hcons, ?_, ?_⟩
  · intro σ call w e he
    simp only [loopBody, he]
  · intro σ call w u hu
    simp only [loopBody, hu]

/-- C6 on three ticks where the second invocation fails: the callback has
been invoked three times, and the failed invocation left one warning. -/
theorem runner_calls_every_tick_witness :
    (runner (countingCall sampleOutcomes) sampleFn [100, 200, 300] (initial, 0)).2 = 3 ∧
    loopBody (countingCall sampleOutcomes) sampleFn (initial, 1) =
      (logSend .warn "Error while executing scheduled function"
          [("name", .str sampleFn.name), ("pos", .str sampleFn.pos), ("error", .str "boom")]
          (logSend .debug "Calling scheduled function"
            [("name", .str sampleFn.name), ("pos", .str sampleFn.pos)] initial), 2) :=
  ⟨(runner_calls_every_tick sampleFn sampleOutcomes [100, 200, 300] initial 0).1,
    (runner_calls_every_tick sampleFn sampleOutcomes [] initial 0).2.2.2.2.2.1 Nat
      (countingCall sampleOutcomes) (initial, 1) "boom" rfl⟩

/-- C7 as stated fails: `"-5s"` parses to a non-positive interval and `sleep`
returns None, not an error. -/
theorem sleep_nonpositive_counterexample :
    goParse "-5s" = .ok (-5000000000) ∧
    (sleep goParse (.ok "-5s") initial).1 = .ret .none ∧
    ¬ ∃ e, (sleep goParse (.ok "-5s") initial).1 = .err e := by
  have h1 : (sleep goParse (.ok "-5s") initial).1 = .ret .none := by decide
  refine ⟨by decide, h1, ?_⟩
  rintro ⟨e, he⟩
  rw [h1] at he
  cases he

/-- C7 amended: for a duration string that parses to a non-positive interval
`d`, `sleep` returns None without error; it passes `d` to `time.Sleep`, which
suspends the caller for no time, and the registry is untouched. -/
theorem sleep_nonpositive (parse : String → Except String Int) (duration : String) (d : Int)
    (st : State) (hp : parse duration = .ok d) (hd : d ≤ 0) :
    (sleep parse (.ok duration) st).1 = .ret .none ∧
    (sleep parse (.ok duration) st).2.slept = st.slept ++ [d] ∧
    blockedFor d = 0 ∧
    sameRegistry (sleep parse (.ok duration) st).2 st := by
  rw [sleep_ok parse duration d st hp]
  simp [blockedFor, hd, sameRegistry]

/-- C7 amended, at `"-5s"` and at `"0s"`. -/
theorem sleep_nonpositive_witness :
    (sleep goParse (.ok "-5s") initial).1 = .ret .none ∧
    (sleep goParse (.ok "0s") initial).1 = .ret .none :=
  ⟨(sleep_nonpositive goParse "-5s" (-5000000000) initial (by decide) (by decide)).1,
    (sleep_nonpositive goParse "0s" 0 initial (by decide) (by decide)).1⟩

/-- C8: if the duration string does not parse, `sleep` returns the error and
the state is as before (nothing is passed to `time.Sleep`); if it parses to a
positive `d`, `sleep` passes exactly `d` to `time.Sleep`, which suspends the
caller for `d`, and returns None. The registry is unchanged in both cases. -/
theorem sleep_spec (parse : String → Except String Int) (duration : String) (st : State) :
    (∀ e, parse duration = .error e →
      sleep parse (.ok duration) st = (.err e, st)) ∧
    (∀ d, parse duration = .ok d → 0 < d →
      (sleep parse (.ok duration) st).1 = .ret .none ∧
      (sleep parse (.ok duration) st).2.slept = st.slept ++ [d] ∧
      blockedFor d = d) ∧
    sameRegistry (sleep parse (.ok duration) st).2 st := by
  refine ⟨?_, ?_, ?_⟩
  · intro e he
    simp [sleep, he]
  · intro d hd hpos
    rw [sleep_ok parse duration d st hd]
    have : ¬ d ≤ 0 := by omega
    simp [blockedFor, this]
  · cases hp : parse duration with
    | error e => simp [sleep, hp, sameRegistry]
    | ok d => simp [sleep_ok parse duration d st hp, sameRegistry]

/-- C8 at `"bad"` and at `"100ms"`. -/
theorem sleep_spec_witness :
    sleep goParse (.ok "bad") initial = (.err "time: invalid duration", initial) ∧
    (sleep goParse (.ok "100ms") initial).1 = .ret .none ∧
    (sleep goParse (.ok "100ms") initial).2.slept = [100000000] :=
  ⟨(sleep_spec goParse "bad" initial).1 _ (by decide),
    ((sleep_spec goParse "100ms" initial).2.1 100000000 (by decide) (by decide)).1,
    ((sleep_spec goParse "100ms" initial).2.1 100000000 (by decide) (by decide)).2.1⟩

/-- C9: in every state the program reaches from the initial one by calls that
all succeed (the goroutines started so far fit in memory), every key of the map
maps to a ticker that is ticking and every key is smaller than the counter; and
`stop` on a present id returns None with that id removed from the map and its
ticker stopped, in one critical section that leaves the mutex free. -/
theorem reachable_keys_live (parse : String → Except String Int) (ops : List Op)
    (hs : allSucceeded (exec parse initial ops).1 = true)
    (hm : fitsInMemory (exec parse initial ops).2 = true) :
    (∀ k p, lookup k (exec parse initial ops).2.tickers = some p →
        ticking (exec parse initial ops).2 p = true) ∧
    (∀ k ∈ keys (exec parse initial ops).2.tickers,
        k < (exec parse initial ops).2.tickerCount) ∧
    (∀ h p, lookup h (exec parse initial ops).2.tickers = some p →
        (stopTicker h (exec parse initial ops).2).1 = .ret .none ∧
        lookup h (stopTicker h (exec parse initial ops).2).2.tickers = none ∧
        h ∉ keys (stopTicker h (exec parse initial ops).2).2.tickers ∧
        halted (stopTicker h (exec parse initial ops).2).2 p = true ∧
        ticking (stopTicker h (exec parse initial ops).2).2 p = false ∧
        (stopTicker h (exec parse initial ops).2).2.locked = false) := by
  have hi := Inv_exec parse ops initial Inv_initial hs
  have hlen := exec_initial_heap_length parse ops
  have htl := exec_initial_tasks_length parse ops
  have hb : (handlesOf (exec parse initial ops).1).length < 9223372036854775808 := by
    simp only [fitsInMemory, maxGoroutines, decide_eq_true_eq] at hm
    omega
  obtain ⟨hl, hc, hk⟩ := hi
  refine ⟨fun k p hkp => (hk k p hkp).2.1, ?_, ?_⟩
  · intro k hmem
    obtain ⟨p, hkp⟩ := (mem_keys_iff _ _).1 hmem
    obtain ⟨h1, _, h3⟩ := hk k p hkp
    have h1b : p < (handlesOf (exec parse initial ops).1).length := by omega
    rw [hc, h3, hlen]
    rw [wrap64_of_range _ (by omega) (by omega), wrap64_of_range _ (by omega) (by omega)]
    exact_mod_cast h1b
  · intro h p hhp
    obtain ⟨h1, _, _⟩ := hk h p hhp
    rw [stopTicker_present h p _ hl hhp]
    have hnone : lookup h (erase h (exec parse initial ops).2.tickers) = none := by
      simp [lookup_erase]
    have hstop : ∃ tk, ((exec parse initial ops).2.heap.modify
        (fun tk => { tk with stopped := true }) p)[p]? = some tk ∧ tk.stopped = true := by
      rw [List.getElem?_modify_eq]
      have : (exec parse initial ops).2.heap[p]? = some ((exec parse initial ops).2.heap[p]) :=
        List.getElem?_eq_getElem h1
      rw [this]
      exact ⟨_, rfl, rfl⟩
    obtain ⟨tk, htk, hst⟩ := hstop
    refine ⟨rfl, hnone, ?_, ?_, ?_, hl⟩
    · intro hmem
      obtain ⟨q, hq⟩ := (mem_keys_iff _ _).1 hmem
      simp only at hq
      rw [hnone] at hq
      cases hq
    · simp only [halted, htk, hst]
    · simp only [ticking, htk, hst]
      rfl

/-- C9 on a run of three creations and a stop; handle 2 is then stopped. -/
theorem reachable_keys_live_witness :
    (∀ k ∈ keys (exec goParse initial
        [.runEvery (.ok ("1s", sampleFn)), .runEvery (.ok ("2s", sampleFn)), .stop 0,
          .runEvery (.ok ("3s", sampleFn))]).2.tickers,
      k < (exec goParse initial
        [.runEvery (.ok ("1s", sampleFn)), .runEvery (.ok ("2s", sampleFn)), .stop 0,
          .runEvery (.ok ("3s", sampleFn))]).2.tickerCount) ∧
    (stopTicker 2 (exec goParse initial
        [.runEvery (.ok ("1s", sampleFn)), .runEvery (.ok ("2s", sampleFn)), .stop 0,
          .runEvery (.ok ("3s", sampleFn))]).2).1 = .ret .none :=
  ⟨(reachable_keys_live goParse
      [.runEvery (.ok ("1s", sampleFn)), .runEvery (.ok ("2s", sampleFn)), .stop 0,
        .runEvery (.ok ("3s", sampleFn))] (by decide) (by decide)).2.1,
    ((reachable_keys_live goParse
      [.runEvery (.ok ("1s", sampleFn)), .runEvery (.ok ("2s", sampleFn)), .stop 0,
        .runEvery (.ok ("3s", sampleFn))] (by decide) (by decide)).2.2 2 2 (by decide)).1⟩

/-- C10: once `stop` has succeeded on id `h`, then after any further calls that
all succeed (the goroutines started so far fit in memory), `h` is not a key of
the map and the ticker that `h` stood for is stopped. No call, whatever its
outcome, turns a stopped ticker on again. -/
theorem stopped_is_terminal (parse : String → Except String Int) (ops1 : List Op) (h : Int)
    (ops2 : List Op)
    (hs : allSucceeded (exec parse initial (ops1 ++ [.stop h] ++ ops2)).1 = true)
    (hm : fitsInMemory (exec parse initial (ops1 ++ [.stop h] ++ ops2)).2 = true) :
    lookup h (exec parse initial (ops1 ++ [.stop h] ++ ops2)).2.tickers = none ∧
    h ∉ keys (exec parse initial (ops1 ++ [.stop h] ++ ops2)).2.tickers ∧
    (∃ p, lookup h (exec parse initial ops1).2.tickers = some p ∧
      halted (exec parse initial (ops1 ++ [.stop h] ++ ops2)).2 p = true ∧
      ticking (exec parse initial (ops1 ++ [.stop h] ++ ops2)).2 p = false) ∧
    (∀ st op q, halted st q = true → halted (step parse st op).2 q = true) := by
  suffices hmain : lookup h (exec parse initial (ops1 ++ [.stop h] ++ ops2)).2.tickers = none ∧
      h ∉ keys (exec parse initial (ops1 ++ [.stop h] ++ ops2)).2.tickers ∧
      ∃ p, lookup h (exec parse initial ops1).2.tickers = some p ∧
        halted (exec parse initial (ops1 ++ [.stop h] ++ ops2)).2 p = true ∧
        ticking (exec parse initial (ops1 ++ [.stop h] ++ ops2)).2 p = false from
    ⟨hmain.1, hmain.2.1, hmain.2.2, fun st op q hq => halted_step parse st op q hq⟩
  have hlen := exec_tasks_heap parse (ops1 ++ [.stop h] ++ ops2) initial rfl
  have hlen2 : (exec parse initial (ops1 ++ [.stop h] ++ ops2)).2.heap.length ≤
      18446744073709551616 := by
    simp only [fitsInMemory, maxGoroutines, decide_eq_true_eq] at hm
    omega
  rw [exec_append, exec_append, exec_singleton] at hs hlen2 ⊢
  simp only [allSucceeded_append, Bool.and_eq_true] at hs
  obtain ⟨⟨hs1, hs2⟩, hs3⟩ := hs
  have hi1 := Inv_exec parse ops1 initial Inv_initial hs1
  have hst : (step parse (exec parse initial ops1).2 (.stop h)).1.succeeded = true := by
    simpa [allSucceeded] using hs2
  rcases step_succeeded parse _ _ hst with ⟨_, _, _, hop, _⟩ | ⟨hd, p, hop, hl, hp⟩ |
    ⟨_, _, hop, _⟩
  · cases hop
  · cases hop
    have hpre : StoppedAt h p (step parse (exec parse initial ops1).2 (.stop h)).2 := by
      refine ⟨Inv_step parse _ _ hi1 hst, ?_⟩
      obtain ⟨h1, _, h3⟩ := hi1.2.2 h p hp
      simp only [step, stopTicker_present h p _ hl hp]
      refine ⟨by simp [lookup_erase], ?_, by simpa using h1, h3⟩
      simp only [halted]
      rw [List.getElem?_modify_eq, List.getElem?_eq_getElem h1]
      rfl
    obtain ⟨_, f1, f2, _, _⟩ := StoppedAt_exec parse h p ops2 _ hpre hs3 hlen2
    refine ⟨f1, ?_, p, hp, f2, ?_⟩
    · intro hmem
      obtain ⟨q, hq⟩ := (mem_keys_iff _ _).1 hmem
      rw [f1] at hq
      cases hq
    · simp only [halted, ticking] at f2 ⊢
      cases hg : (exec parse (step parse (exec parse initial ops1).2 (Op.stop h)).2
          ops2).2.heap[p]? with
      | none => rfl
      | some tk =>
        rw [hg] at f2
        simp only at f2
        simp [f2]
  · cases hop

/-- C10 on a run where handle 0 is stopped and two more timers are
created and one of them stopped. -/
theorem stopped_is_terminal_witness :
    lookup 0 (exec goParse initial
      ([.runEvery (.ok ("1s", sampleFn))] ++ [.stop 0] ++
        [.runEvery (.ok ("2s", sampleFn)), .runEvery (.ok ("3s", sampleFn)),
          .stop 2])).2.tickers = none :=
  (stopped_is_terminal goParse [.runEvery (.ok ("1s", sampleFn))] 0
    [.runEvery (.ok ("2s", sampleFn)), .runEvery (.ok ("3s", sampleFn)), .stop 2]
    (by decide) (by decide)).1

end Builtins
